import Mathlib

/-!
Verification of the AI invoice processor: a shallow embedding of the
dashboard frontend (src/frontend/src/App.jsx) together with spec-modelled
definitions of the backend extraction pipeline (file-kind dispatch, archive
expansion, date parsing, normalization), and proofs of the stated
properties of both.
-/

namespace InvoiceApp

/-- A JavaScript value as it may appear in an invoice field of a dashboard
row: null, undefined, a string, or a number (modelled as a rational). -/
inductive JsVal where
  | vNull
  | vUndef
  | vStr (s : String)
  | vNum (q : ℚ)
deriving DecidableEq, Repr

/-- Numeric value of a list of decimal digit characters, most significant
first. -/
def digitsToNat (cs : List Char) : Nat :=
  cs.foldl (fun n c => 10 * n + (c.toNat - 48)) 0

/-- Parse an unsigned decimal mantissa from the front of a character list,
JavaScript parseFloat style: digits, optionally followed by a dot and more
digits; trailing garbage is ignored; at least one digit is required. -/
def parseMantissa (cs : List Char) : Option ℚ :=
  let intPart := cs.takeWhile Char.isDigit
  let rest := cs.dropWhile Char.isDigit
  match rest with
  | '.' :: r =>
      let fracPart := r.takeWhile Char.isDigit
      if intPart.isEmpty && fracPart.isEmpty then none
      else some ((digitsToNat intPart : ℚ) +
                 (digitsToNat fracPart : ℚ) / ((10 : ℚ) ^ fracPart.length))
  | _ => if intPart.isEmpty then none else some (digitsToNat intPart : ℚ)

def isJsSpace (c : Char) : Bool :=
  c = ' ' || c = '\t' || c = '\n' || c = '\r'

/-- Split a character list on a separator character; like splitOn, the
result always has one more group than there are separators. -/
def splitOnChar (sep : Char) : List Char → List (List Char)
  | [] => [[]]
  | c :: rest =>
      if c = sep then [] :: splitOnChar sep rest
      else
        match splitOnChar sep rest with
        | g :: gs => (c :: g) :: gs
        | [] => [[c]]

/-- A non-empty all-digit character list as a number. -/
def charsToNat? (cs : List Char) : Option Nat :=
  if !cs.isEmpty && cs.all Char.isDigit then some (digitsToNat cs) else none

/-- Lowercase a character list. -/
def lowerChars (cs : List Char) : List Char :=
  cs.map Char.toLower

/-- Model of JavaScript parseFloat on a string: skip leading whitespace,
optional sign, then a decimal mantissa; none models NaN. -/
def parseFloatStr (s : String) : Option ℚ :=
  match s.toList.dropWhile isJsSpace with
  | '-' :: r => (parseMantissa r).map (fun q => -q)
  | '+' :: r => parseMantissa r
  | cs => parseMantissa cs

/-- Model of JavaScript parseFloat applied to an arbitrary field value as
the dashboard does: numbers pass through, strings are parsed, null and
undefined coerce to NaN (none). -/
def parseFloatJs (v : JsVal) : Option ℚ :=
  match v with
  | .vNum q => some q
  | .vStr s => parseFloatStr s
  | .vNull => none
  | .vUndef => none

/-- Insert a thousands separator after every group of three characters of
a reversed digit list. -/
def groupRev : List Char → List Char
  | a :: b :: c :: d :: rest => a :: b :: c :: ',' :: groupRev (d :: rest)
  | l => l

/-- Decimal rendering of a natural number with en-US thousands grouping. -/
def withCommas (n : Nat) : String :=
  String.mk ((groupRev (Nat.toDigits 10 n).reverse).reverse)

def twoDigits (n : Nat) : String :=
  if n < 10 then "0" ++ toString n else toString n

/-- The magnitude of a rational in cents, rounded half away from zero:
floor of the absolute value times one hundred plus one half, computed on
the numerator and denominator directly. -/
def centsOf (q : ℚ) : Nat :=
  (q.num.natAbs * 200 + q.den) / (2 * q.den)

/-- Model of Intl.NumberFormat en-US USD formatting: round to cents (half
away from zero), dollar sign, thousands grouping, two decimals. -/
def formatUSD (q : ℚ) : String :=
  (if q < 0 then "-" else "") ++ "$" ++
    withCommas (centsOf q / 100) ++ "." ++ twoDigits (centsOf q % 100)

/-- Embedding of formatCurrency from src/frontend/src/App.jsx: placeholder
for null, undefined, the empty string, and values that do not parse to a
number; otherwise the USD formatting of the parsed number. -/
def formatCurrency (v : JsVal) : String :=
  if v = JsVal.vNull ∨ v = JsVal.vUndef ∨ v = JsVal.vStr "" then "—"
  else
    match parseFloatJs v with
    | none => "—"
    | some q => formatUSD q

/-- One dashboard data row as consumed by the chart and total-value
aggregations in App.jsx. -/
structure Row where
  status : String
  invoice_date : Option String
  total_amount : JsVal
deriving DecidableEq, Repr

/-- parseFloat-or-zero, the JavaScript idiom used in the totalValue
reducer. -/
def jsNumOr0 (v : JsVal) : ℚ := (parseFloatJs v).getD 0

/-- Embedding of the totalValue memo from App.jsx: sum of the parsed
total_amount of every non-Failed row, with unparseable amounts counting
as zero. -/
def totalValue (data : List Row) : ℚ :=
  (data.filter (fun d => d.status != "Failed")).foldl
    (fun s d => s + jsNumOr0 d.total_amount) 0

/-- The chart's date of a row: its invoice_date when truthy and not the
sentinel string Unknown, following the guard in the chartData memo. -/
def dateOf (r : Row) : Option String :=
  match r.invoice_date with
  | some s => if s = "" ∨ s = "Unknown" then none else some s
  | none => none

/-- One step of the counts object construction: increment an existing key
in place, or append a fresh key with count one (JavaScript object key
insertion order). -/
def bump (l : List (String × Nat)) (k : String) : List (String × Nat) :=
  match l with
  | [] => [(k, 1)]
  | (k2, n) :: rest =>
      if k2 = k then (k2, n + 1) :: rest else (k2, n) :: bump rest k

/-- The counts association list built by iterating over the qualifying
dates in row order. -/
def buildCounts (ds : List String) : List (String × Nat) :=
  ds.foldl bump []

/-- Lexicographic comparison of character lists by code point, the model
of localeCompare on ASCII date strings. -/
def lexLe : List Char → List Char → Bool
  | [], _ => true
  | _ :: _, [] => false
  | c :: cs, d :: ds =>
      decide (c.toNat < d.toNat)
      || (decide (c.toNat = d.toNat) && lexLe cs ds)

/-- The comparison the chart entries are sorted by: ascending date
string. -/
def chartLe (a b : String × Nat) : Prop := lexLe a.1.toList b.1.toList = true

instance : DecidableRel chartLe :=
  fun a b => inferInstanceAs (Decidable (lexLe a.1.toList b.1.toList = true))

instance : IsTotal (String × Nat) chartLe := by
  constructor
  have h : ∀ cs ds, lexLe cs ds = true ∨ lexLe ds cs = true := by
    intro cs
    induction cs with
    | nil => intro ds; left; rfl
    | cons c cs ih =>
        intro ds
        cases ds with
        | nil => right; rfl
        | cons d ds =>
            rcases Nat.lt_trichotomy c.toNat d.toNat with h1 | h1 | h1
            · left; simp [lexLe, h1]
            · rcases ih ds with h2 | h2
              · left; simp [lexLe, h1, h2]
              · right; simp [lexLe, h1.symm, h2]
            · right; simp [lexLe, h1]
  intro a b
  exact h a.1.toList b.1.toList

instance : IsTrans (String × Nat) chartLe := by
  constructor
  have h : ∀ as bs cs, lexLe as bs = true → lexLe bs cs = true →
      lexLe as cs = true := by
    intro as
    induction as with
    | nil => intro bs cs _ _; rfl
    | cons a as ih =>
        intro bs cs hab hbc
        cases bs with
        | nil => simp [lexLe] at hab
        | cons b bs =>
            cases cs with
            | nil => simp [lexLe] at hbc
            | cons c cs =>
                simp only [lexLe, Bool.or_eq_true, Bool.and_eq_true,
                  decide_eq_true_eq] at hab hbc ⊢
                rcases hab with h1 | ⟨h1, h1r⟩ <;> rcases hbc with h2 | ⟨h2, h2r⟩
                · exact Or.inl (by omega)
                · exact Or.inl (by omega)
                · exact Or.inl (by omega)
                · exact Or.inr ⟨by omega, ih bs cs h1r h2r⟩
  intro a b c hab hbc
  exact h _ _ _ hab hbc

/-- slice(-10): the last n elements of a list. -/
def lastN (n : Nat) (l : List (String × Nat)) : List (String × Nat) :=
  l.drop (l.length - n)

/-- Embedding of the chartData memo from App.jsx: qualifying dates of
non-Failed rows are counted per date, the entries are sorted ascending by
date, and the last ten are kept. -/
def chartData (data : List Row) : List (String × Nat) :=
  lastN 10 (List.insertionSort chartLe
    (buildCounts ((data.filter (fun d => d.status != "Failed")).filterMap dateOf)))

/-- A calendar date as produced by the backend date parser. -/
structure Date where
  year : Nat
  month : Nat
  day : Nat
deriving DecidableEq, Repr

/-- The fixed-schema output record of the pipeline (spec section 3):
optional fields are explicitly empty rather than failing, vendor_name
defaults to Unknown. -/
structure CanonicalInvoice where
  invoice_number : Option String
  vendor_name : String
  invoice_date : Option Date
  amount : Option ℚ
  tax_amount : Option ℚ
  total_amount : Option ℚ
  payment_status : Option String
  source_file : String
deriving DecidableEq, Repr

/-- Row status as used by the frontend: Processed models the spec's
Success, Failed is Failed. -/
inductive Status where
  | Processed
  | Failed
deriving DecidableEq, Repr

/-- One ItemResult as a dashboard row: status, originating file, the
invoice payload when successful, the error label rendered in the vendor
column and the diagnostic detail when failed. -/
structure Item where
  status : Status
  source_file : String
  invoice : Option CanonicalInvoice
  vendor_label : Option String
  diagnostic : Option String
deriving DecidableEq, Repr

/-- The two shapes an upload response can take (App.jsx branches on
res.data.results): a list of ItemResult for multi-unit blobs, or one
record for a single image or page document. -/
inductive ResponseData where
  | results (items : List Item)
  | single (rec : CanonicalInvoice)
deriving DecidableEq, Repr

/-- The data object of an axios error response. -/
structure ErrResponseData where
  detail : Option String
  message : Option String
deriving DecidableEq, Repr

/-- An axios error response: payload plus HTTP status. -/
structure ErrResponse where
  data : ErrResponseData
  status : Option Nat
deriving DecidableEq, Repr

/-- An axios error object as inspected by the catch block of
handleUpload: error code and optional response. -/
structure ErrInfo where
  code : Option String
  response : Option ErrResponse
deriving DecidableEq, Repr

/-- JavaScript truthiness of an optional string: present and non-empty. -/
def truthyStr (o : Option String) : Option String :=
  match o with
  | some s => if s = "" then none else some s
  | none => none

/-- Embedding of the error-message extraction chain in handleUpload
(App.jsx lines 110 to 121). -/
def errorMsgOf (e : ErrInfo) : String :=
  if e.code = some "ECONNABORTED" then
    "Timeout — server took too long (Render may be waking up, try again)"
  else if e.code = some "ERR_NETWORK" ∨ e.response = none then
    "Network error — backend may be offline or still starting up"
  else
    match e.response with
    | none => "Unknown error"
    | some resp =>
      match truthyStr resp.data.detail with
      | some d => d
      | none =>
        match truthyStr resp.data.message with
        | some m => m
        | none =>
          match resp.status with
          | some st =>
              if st = 0 then "Unknown error" else "Server error " ++ toString st
          | none => "Unknown error"

/-- The outcome of one file upload as seen by the frontend: a response of
one of the two contract shapes, or a thrown axios error. -/
inductive UploadOutcome where
  | ok (r : ResponseData)
  | err (e : ErrInfo)
deriving DecidableEq, Repr

/-- The row pushed for a single-record response: the record spread with
status Processed and source_file overridden to the uploaded file name. -/
def mkSingleItem (file : String) (rec : CanonicalInvoice) : Item :=
  { status := Status.Processed
    source_file := file
    invoice := some { rec with source_file := file }
    vendor_label := none
    diagnostic := none }

/-- The row pushed by the catch block: status Failed, no invoice payload,
the error message as vendor label and diagnostic detail. -/
def failedItem (file : String) (e : ErrInfo) : Item :=
  { status := Status.Failed
    source_file := file
    invoice := none
    vendor_label := some ("Error: " ++ errorMsgOf e)
    diagnostic := some (errorMsgOf e) }

/-- The rows one file contributes to the results array: a results-shaped
response is spliced in as is, a single-shaped response contributes one
Processed row, a thrown error contributes one Failed row. -/
def processOne (file : String) (o : UploadOutcome) : List Item :=
  match o with
  | .ok (.results rs) => rs
  | .ok (.single rec) => [mkSingleItem file rec]
  | .err e => [failedItem file e]

/-- Embedding of the handleUpload loop of App.jsx: each staged file is
uploaded in order and its rows are appended to the results array. -/
def processBatch (us : List (String × UploadOutcome)) : List Item :=
  us.foldl (fun acc u => acc ++ processOne u.1 u.2) []

/-- The same results array written as an in-order concatenation of each
file's contribution. -/
def flatResults : List (String × UploadOutcome) → List Item
  | [] => []
  | u :: rest => processOne u.1 u.2 ++ flatResults rest

/-- The backend-produced item list inside an outcome, empty unless the
response was results-shaped. -/
def backendItems (o : UploadOutcome) : List Item :=
  match o with
  | .ok (.results rs) => rs
  | _ => []

/-- The ItemResult consistency invariant of spec section 3: Processed
(Success) carries exactly one CanonicalInvoice, Failed carries none. -/
def itemConsistent (it : Item) : Prop :=
  (it.status = Status.Processed → ∃ inv, it.invoice = some inv)
  ∧ (it.status = Status.Failed → it.invoice = none)

/-- The file kinds of the Detector (spec section 2). -/
inductive FileKind where
  | Image
  | RenderablePageDocument
  | Spreadsheet
  | DelimitedText
  | Archive
  | Unsupported
deriving DecidableEq, Repr

/-- Whether a kind expands into multiple dispatched units. -/
def multiUnitKind : FileKind → Bool
  | .Archive | .Spreadsheet | .DelimitedText => true
  | _ => false

/-- Modelled from the spec: the backend ingestion endpoint is not part of
the frontend sources; spec section 6 fixes its response shape — a blob
that expands into multiple units (archive, spreadsheet, CSV) returns an
ordered list of ItemResult, a single image or page document returns one
CanonicalInvoice, and an unsupported blob returns no pipeline response. -/
def ingestResponse (k : FileKind) (units : List Item)
    (rec : CanonicalInvoice) : Option ResponseData :=
  match k with
  | .Unsupported => none
  | .Archive | .Spreadsheet | .DelimitedText => some (.results units)
  | .Image | .RenderablePageDocument => some (.single rec)

/-- One entry of an archive container: its path and whether it is a
directory. -/
structure ArchiveEntry where
  path : String
  isDir : Bool
deriving DecidableEq, Repr

/-- The base name of an entry path: its last slash-separated component. -/
def baseNameOf (p : String) : List Char :=
  (splitOnChar '/' p.toList).getLastD p.toList

/-- Whether an entry path contains the macOS system-folder marker
segment. -/
def hasSystemMarker (p : String) : Bool :=
  (splitOnChar '/' p.toList).contains "__MACOSX".toList

/-- Whether the base name of an entry path is a dot-file (hidden
metadata such as .DS_Store or ._sidecars). -/
def isDotFile (p : String) : Bool :=
  match baseNameOf p with
  | '.' :: _ => true
  | _ => false

/-- The Archive Expander skip rule of spec section 4.2. -/
def skipEntry (e : ArchiveEntry) : Bool :=
  hasSystemMarker e.path || isDotFile e.path || e.isDir

/-- Modelled from the spec: the Archive Expander is backend code absent
from the frontend sources; spec section 4.2 has it keep, in entry order,
exactly the entries that are not in a system folder, not dot-files and
not directories. -/
def expandArchive (entries : List ArchiveEntry) : List ArchiveEntry :=
  entries.filter (fun e => !skipEntry e)

/-- Range validity of a parsed year, month and day. -/
def validYMD (y m d : Nat) : Bool :=
  1 ≤ y && 1 ≤ m && m ≤ 12 && 1 ≤ d && d ≤ 31

def mkValidDate (y m d : Nat) : Option Date :=
  if validYMD y m d then some ⟨y, m, d⟩ else none

/-- ISO year-month-day pattern. -/
def patISO (s : String) : Option Date :=
  match splitOnChar '-' s.toList with
  | [ys, ms, ds] =>
    match charsToNat? ys, charsToNat? ms, charsToNat? ds with
    | some y, some m, some d => mkValidDate y m d
    | _, _, _ => none
  | _ => none

/-- Slash-separated month/day/year pattern. -/
def patMDY (s : String) : Option Date :=
  match splitOnChar '/' s.toList with
  | [ms, ds, ys] =>
    match charsToNat? ys, charsToNat? ms, charsToNat? ds with
    | some y, some m, some d => mkValidDate y m d
    | _, _, _ => none
  | _ => none

/-- Slash-separated day/month/year pattern. -/
def patDMY (s : String) : Option Date :=
  match splitOnChar '/' s.toList with
  | [ds, ms, ys] =>
    match charsToNat? ys, charsToNat? ms, charsToNat? ds with
    | some y, some m, some d => mkValidDate y m d
    | _, _, _ => none
  | _ => none

/-- Dot-separated day.month.year pattern. -/
def patDotDMY (s : String) : Option Date :=
  match splitOnChar '.' s.toList with
  | [ds, ms, ys] =>
    match charsToNat? ys, charsToNat? ms, charsToNat? ds with
    | some y, some m, some d => mkValidDate y m d
    | _, _, _ => none
  | _ => none

def monthNames : List (String × Nat) :=
  [("jan", 1), ("feb", 2), ("mar", 3), ("apr", 4), ("may", 5), ("jun", 6),
   ("jul", 7), ("aug", 8), ("sep", 9), ("oct", 10), ("nov", 11), ("dec", 12)]

def monthFromName (cs : List Char) : Option Nat :=
  (monthNames.find? (fun p => p.1.toList == lowerChars cs)).map (fun p => p.2)

/-- Textual-month pattern such as 5 Jan 2024. -/
def patTextual (s : String) : Option Date :=
  match splitOnChar ' ' s.toList with
  | [ds, mons, ys] =>
    match charsToNat? ys, monthFromName mons, charsToNat? ds with
    | some y, some m, some d => mkValidDate y m d
    | _, _, _ => none
  | _ => none

/-- The fixed, ordered pattern priority list of spec section 4.5. -/
def datePatterns : List (String → Option Date) :=
  [patISO, patMDY, patDMY, patDotDMY, patTextual]

/-- First defined value in a list of optional results. -/
def firstSome : List (Option Date) → Option Date
  | [] => none
  | some a :: _ => some a
  | none :: rest => firstSome rest

/-- Each pattern's result on a raw string, in priority order. -/
def patternResults (s : String) : List (Option Date) :=
  datePatterns.map (fun p => p s)

/-- Modelled from the spec: the backend date parser is absent from the
frontend sources; spec section 4.5 has it try a fixed ordered list of
format patterns, the first success wins, and exhaustion yields an empty
date rather than a failure. -/
def parseDate (s : String) : Option Date :=
  firstSome (patternResults s)

/-- A raw extracted field value: a string, a number, or an
already-parsed calendar date. -/
inductive RawValue where
  | str (s : String)
  | num (q : ℚ)
  | date (d : Date)
deriving DecidableEq, Repr

inductive ExtractionMethod where
  | Vision
  | Tabular
deriving DecidableEq, Repr

/-- The unnormalized field map produced by an extraction adapter (spec
section 3). -/
structure RawExtraction where
  fields : List (String × RawValue)
  extraction_method : ExtractionMethod
  source_label : String
deriving DecidableEq, Repr

/-- Characters stripped before numeric coercion: currency symbols and
thousands separators. -/
def isStripChar (c : Char) : Bool :=
  c = '$' || c = ',' || c = ' ' || c = '€' || c = '£'

/-- Strict unsigned decimal parse of a full character list. -/
def parseDecimalAll (cs : List Char) : Option ℚ :=
  let intPart := cs.takeWhile Char.isDigit
  let rest := cs.dropWhile Char.isDigit
  match rest with
  | [] => if intPart.isEmpty then none else some (digitsToNat intPart : ℚ)
  | '.' :: r =>
      if r.all Char.isDigit && !(intPart.isEmpty && r.isEmpty) then
        some ((digitsToNat intPart : ℚ) +
              (digitsToNat r : ℚ) / ((10 : ℚ) ^ r.length))
      else none
  | _ => none

/-- Modelled from the spec: numeric coercion of section 4.5 — currency
symbols and thousands separators are stripped before decimal parsing; an
unparseable value becomes empty, never a failure. -/
def parseNumber (s : String) : Option ℚ :=
  match s.toList.filter (fun c => !isStripChar c) with
  | '-' :: r => (parseDecimalAll r).map (fun q => -q)
  | cs => parseDecimalAll cs

/-- The alias table of spec section 4.5: each canonical field name with
the lowercase raw keys that resolve to it. -/
def aliasGroups : List (String × List String) :=
  [("invoice_number", ["invoice_number", "invoice number", "invoice no"]),
   ("vendor_name", ["vendor_name", "vendor", "supplier", "company"]),
   ("invoice_date", ["invoice_date", "invoice date", "date"]),
   ("amount", ["amount", "subtotal", "pre-tax amount"]),
   ("tax_amount", ["tax_amount", "vat", "gst", "tax"]),
   ("total_amount", ["total_amount", "grand total", "amount due", "total"]),
   ("payment_status", ["payment_status", "payment status", "status"])]

def aliasesFor (canonical : String) : List String :=
  ((aliasGroups.find? (fun g => g.1 == canonical)).map (fun g => g.2)).getD []

/-- First raw field whose key matches one of the given aliases,
case-insensitively. -/
def lookupRaw (keys : List String) : List (String × RawValue) → Option RawValue
  | [] => none
  | (k, v) :: rest =>
      if keys.any (fun a => a.toList == lowerChars k.toList) then some v
      else lookupRaw keys rest

def fieldFor (r : RawExtraction) (canonical : String) : Option RawValue :=
  lookupRaw (aliasesFor canonical) r.fields

def coerceString : Option RawValue → Option String
  | some (.str s) => some s
  | _ => none

/-- Date coercion: a value that is already a calendar date is kept, a
string goes through the ordered-fallback parser. -/
def coerceDate : Option RawValue → Option Date
  | some (.date d) => some d
  | some (.str s) => parseDate s
  | _ => none

/-- Numeric coercion: a value that is already a decimal is kept, a
string is stripped and parsed. -/
def coerceNumber : Option RawValue → Option ℚ
  | some (.num q) => some q
  | some (.str s) => parseNumber s
  | _ => none

/-- Modelled from the spec: the Normalizer is backend code absent from
the frontend sources; spec section 4.5 has it resolve aliased keys
case-insensitively, parse dates by ordered fallback, coerce
currency-like strings to numbers, and default a missing vendor to
Unknown. -/
def normalize (r : RawExtraction) : CanonicalInvoice :=
  { invoice_number := coerceString (fieldFor r "invoice_number")
    vendor_name := (coerceString (fieldFor r "vendor_name")).getD "Unknown"
    invoice_date := coerceDate (fieldFor r "invoice_date")
    amount := coerceNumber (fieldFor r "amount")
    tax_amount := coerceNumber (fieldFor r "tax_amount")
    total_amount := coerceNumber (fieldFor r "total_amount")
    payment_status := coerceString (fieldFor r "payment_status")
    source_file := r.source_label }

def optRawField (k : String) (v : Option RawValue) : List (String × RawValue) :=
  match v with
  | some rv => [(k, rv)]
  | none => []

/-- An already-canonical record presented back to the Normalizer: keys
canonical, the date already a calendar date, the numbers already
decimal. -/
def embedCanonical (c : CanonicalInvoice) : RawExtraction :=
  { fields :=
      optRawField "invoice_number" (c.invoice_number.map RawValue.str)
      ++ [("vendor_name", RawValue.str c.vendor_name)]
      ++ optRawField "invoice_date" (c.invoice_date.map RawValue.date)
      ++ optRawField "amount" (c.amount.map RawValue.num)
      ++ optRawField "tax_amount" (c.tax_amount.map RawValue.num)
      ++ optRawField "total_amount" (c.total_amount.map RawValue.num)
      ++ optRawField "payment_status" (c.payment_status.map RawValue.str)
    extraction_method := ExtractionMethod.Tabular
    source_label := c.source_file }

/-- Association lookup in a counts list. -/
def alookup : List (String × Nat) → String → Option Nat
  | [], _ => none
  | (a, n) :: rest, k => if a = k then some n else alookup rest k

/-- A sample canonical invoice used to instantiate witnesses. -/
def invSample : CanonicalInvoice :=
  ⟨none, "Acme", none, none, none, none, none, "a.png"⟩

/-- A sample axios error (no code, no response: a network error). -/
def errSample : ErrInfo := ⟨none, none⟩

/-- A sample upload batch: one single-record success then one thrown
error. -/
def batchSample : List (String × UploadOutcome) :=
  [("a.png", UploadOutcome.ok (ResponseData.single invSample)),
   ("b.zip", UploadOutcome.err errSample)]

/-- Sample dashboard rows: two processed rows on the same date, one
failed row on that date. -/
def rowsSample : List Row :=
  [⟨"Processed", some "2024-01-01", JsVal.vNull⟩,
   ⟨"Processed", some "2024-01-01", JsVal.vNull⟩,
   ⟨"Failed", some "2024-01-01", JsVal.vNull⟩]

/-- Sample rows for the total-value witness. -/
def rowsTotalSample : List Row :=
  [⟨"Processed", none, JsVal.vStr "10.5"⟩,
   ⟨"Failed", none, JsVal.vStr "99"⟩,
   ⟨"Processed", none, JsVal.vStr "x"⟩]

lemma foldl_add_map_sum (l : List Row) (f : Row → ℚ) :
    ∀ init : ℚ, l.foldl (fun s d => s + f d) init = init + (l.map f).sum := by
  induction l with
  | nil => intro init; simp
  | cons a rest ih =>
      intro init
      simp only [List.foldl_cons, List.map_cons, List.sum_cons, ih]
      ring

/-- C8: formatCurrency is total and guarded — null, undefined, the empty
string and unparseable values give the placeholder, and any value whose
parse succeeds gives the en-US USD formatting of the parsed number. -/
theorem formatCurrency_total_guarded (v : JsVal) :
    (parseFloatJs v = none → formatCurrency v = "—")
    ∧ (∀ q : ℚ, parseFloatJs v = some q → formatCurrency v = formatUSD q)
    ∧ ((v = JsVal.vNull ∨ v = JsVal.vUndef ∨ v = JsVal.vStr "") →
        parseFloatJs v = none) := by
  refine ⟨?_, ?_, ?_⟩
  · intro h
    unfold formatCurrency
    split_ifs with hv
    · rfl
    · rw [h]
  · intro q hq
    unfold formatCurrency
    split_ifs with hv
    · exfalso
      rcases hv with h | h | h <;> subst h <;> exact Option.noConfusion hq
    · rw [hq]
  · rintro (h | h | h) <;> subst h <;> rfl

/-- Witness for C8 at concrete inputs: a parsable string is formatted, a
null is the placeholder. -/
theorem formatCurrency_total_guarded_witness :
    formatCurrency (JsVal.vStr "42") = "$42.00"
    ∧ formatCurrency JsVal.vNull = "—" := by
  constructor
  · have h := (formatCurrency_total_guarded (JsVal.vStr "42")).2.1
      ((42 : ℕ) : ℚ) rfl
    rw [h]
    decide
  · exact (formatCurrency_total_guarded JsVal.vNull).1 rfl

/-- C9: the displayed total value is the sum, over the non-Failed rows,
of the numeric parse of total_amount with unparseable amounts counting
zero, and appending a Failed row never changes it. -/
theorem totalValue_aggregation (data : List Row) :
    totalValue data
      = ((data.filter (fun d => d.status != "Failed")).map
          (fun d => (parseFloatJs d.total_amount).getD 0)).sum
    ∧ ∀ r : Row, r.status = "Failed" → totalValue (data ++ [r]) = totalValue data := by
  constructor
  · unfold totalValue jsNumOr0
    rw [foldl_add_map_sum]
    simp
  · intro r h
    unfold totalValue
    rw [List.filter_append]
    have hr : (r.status != "Failed") = false := by simp [h]
    simp [List.filter, hr]

/-- Witness for C9: the empty list totals zero, and appending a concrete
Failed row to a concrete list leaves its total unchanged. -/
theorem totalValue_aggregation_witness :
    totalValue [] = 0
    ∧ totalValue (rowsTotalSample ++ [⟨"Failed", none, JsVal.vNum 5⟩])
        = totalValue rowsTotalSample := by
  constructor
  · rw [(totalValue_aggregation []).1]
    rfl
  · exact (totalValue_aggregation rowsTotalSample).2 ⟨"Failed", none, JsVal.vNum 5⟩ rfl

lemma processBatch_acc (us : List (String × UploadOutcome)) :
    ∀ acc : List Item,
      us.foldl (fun a u => a ++ processOne u.1 u.2) acc = acc ++ flatResults us := by
  induction us with
  | nil => intro acc; simp [flatResults]
  | cons u rest ih =>
      intro acc
      simp [flatResults, List.foldl_cons, ih, List.append_assoc]

lemma processBatch_eq (us : List (String × UploadOutcome)) :
    processBatch us = flatResults us := by
  unfold processBatch
  rw [processBatch_acc]
  simp

lemma flatResults_append (xs ys : List (String × UploadOutcome)) :
    flatResults (xs ++ ys) = flatResults xs ++ flatResults ys := by
  induction xs with
  | nil => simp [flatResults]
  | cons u rest ih => simp [flatResults, ih]

lemma length_flatResults (us : List (String × UploadOutcome)) :
    (flatResults us).length
      = (us.map (fun u => (processOne u.1 u.2).length)).sum := by
  induction us with
  | nil => simp [flatResults]
  | cons u rest ih => simp [flatResults, ih]

lemma mem_flatResults (us : List (String × UploadOutcome)) (it : Item) :
    it ∈ flatResults us ↔ ∃ u ∈ us, it ∈ processOne u.1 u.2 := by
  induction us with
  | nil => simp [flatResults]
  | cons u rest ih => simp [flatResults, ih]

/-- C1: per-item failure isolation — a unit whose upload throws
contributes exactly one Failed row carrying a diagnostic, placed between
the unchanged results of the units before it and after it. -/
theorem failure_isolation (pre post : List (String × UploadOutcome))
    (file : String) (e : ErrInfo) :
    processBatch (pre ++ (file, UploadOutcome.err e) :: post)
      = processBatch pre ++ failedItem file e :: processBatch post
    ∧ (failedItem file e).status = Status.Failed
    ∧ (failedItem file e).invoice = none
    ∧ (failedItem file e).diagnostic = some (errorMsgOf e) := by
  refine ⟨?_, rfl, rfl, rfl⟩
  rw [processBatch_eq, processBatch_eq, processBatch_eq,
    show (file, UploadOutcome.err e) :: post
        = [(file, UploadOutcome.err e)] ++ post from rfl,
    flatResults_append, flatResults_append]
  simp [flatResults, processOne]

/-- C3: order preservation — the results array is the in-order
concatenation of each submitted unit's rows, its length is the sum of
the per-unit row counts, and expanded members, single records and
failures each occupy the position where their unit was submitted. -/
theorem order_preservation (us : List (String × UploadOutcome)) :
    processBatch us = flatResults us
    ∧ (processBatch us).length
        = (us.map (fun u => (processOne u.1 u.2).length)).sum
    ∧ (∀ (file : String) (rs : List Item),
        processOne file (UploadOutcome.ok (ResponseData.results rs)) = rs)
    ∧ (∀ (file : String) (rec : CanonicalInvoice),
        processOne file (UploadOutcome.ok (ResponseData.single rec))
          = [mkSingleItem file rec])
    ∧ (∀ (file : String) (e : ErrInfo),
        processOne file (UploadOutcome.err e) = [failedItem file e]) := by
  refine ⟨processBatch_eq us, ?_, fun _ _ => rfl, fun _ _ => rfl, fun _ _ => rfl⟩
  rw [processBatch_eq]
  exact length_flatResults us

/-- C4: ItemResult consistency — when every backend-supplied results
row is consistent, every row the batch produces has a payload exactly
when its status is Processed and none when Failed. -/
theorem itemresult_consistency (us : List (String × UploadOutcome))
    (h : ∀ u ∈ us, ∀ it ∈ backendItems u.2, itemConsistent it) :
    ∀ it ∈ processBatch us, itemConsistent it := by
  intro it hit
  rw [processBatch_eq, mem_flatResults] at hit
  obtain ⟨u, hu, hmem⟩ := hit
  obtain ⟨file, o⟩ := u
  match o with
  | UploadOutcome.ok (ResponseData.results rs) =>
      exact h (file, UploadOutcome.ok (ResponseData.results rs)) hu it hmem
  | UploadOutcome.ok (ResponseData.single rec) =>
      have : it = mkSingleItem file rec := by
        simpa [processOne] using hmem
      subst this
      exact ⟨fun _ => ⟨_, rfl⟩, fun hf => Status.noConfusion hf⟩
  | UploadOutcome.err e =>
      have : it = failedItem file e := by
        simpa [processOne] using hmem
      subst this
      exact ⟨fun hp => Status.noConfusion hp, fun _ => rfl⟩

/-- Witness for C4: the Failed row of a concrete two-file batch is
consistent; the batch hypothesis is discharged on concrete data. -/
theorem itemresult_consistency_witness :
    itemConsistent (failedItem "b.zip" errSample) := by
  refine itemresult_consistency batchSample ?_ (failedItem "b.zip" errSample) ?_
  · intro u hu it hit
    have hu2 := List.mem_cons.mp hu
    rcases hu2 with rfl | hu2
    · simp [backendItems] at hit
    · have hu3 := List.mem_cons.mp hu2
      rcases hu3 with rfl | hu3
      · simp [backendItems] at hit
      · exact absurd hu3 (List.not_mem_nil _)
  · decide

/-- C2: ingestion response shape contract — a supported blob's response
is results-shaped exactly when its kind expands into multiple units and
single-shaped exactly when it is an image or page document, and the
caller consumes the two shapes by splicing the list or pushing one
Processed record. -/
theorem response_shape_contract (k : FileKind) (units : List Item)
    (rec : CanonicalInvoice) (file : String) :
    (k ≠ FileKind.Unsupported →
      ((multiUnitKind k = true
          ↔ ingestResponse k units rec = some (ResponseData.results units))
       ∧ (multiUnitKind k = false
          ↔ ingestResponse k units rec = some (ResponseData.single rec))))
    ∧ processOne file (UploadOutcome.ok (ResponseData.results units)) = units
    ∧ processOne file (UploadOutcome.ok (ResponseData.single rec))
        = [mkSingleItem file rec] := by
  refine ⟨?_, rfl, rfl⟩
  intro hk
  cases k <;> simp [multiUnitKind, ingestResponse]
  exact hk rfl

/-- Witness for C2 at concrete kinds: an archive gets the results list,
an image gets the single record, and the caller splices a results
list. -/
theorem response_shape_contract_witness :
    ingestResponse FileKind.Archive [] invSample
        = some (ResponseData.results [])
    ∧ ingestResponse FileKind.Image [] invSample
        = some (ResponseData.single invSample)
    ∧ processOne "f.zip" (UploadOutcome.ok (ResponseData.results [])) = [] := by
  refine ⟨?_, ?_, (response_shape_contract FileKind.Archive [] invSample "f.zip").2.1⟩
  · exact ((response_shape_contract FileKind.Archive [] invSample "f.zip").1
      (by decide)).1.mp rfl
  · exact ((response_shape_contract FileKind.Image [] invSample "f.zip").1
      (by decide)).2.mp rfl

lemma firstSome_all_none : ∀ l : List (Option Date), (∀ q ∈ l, q = none) →
    firstSome l = none := by
  intro l
  induction l with
  | nil => intro _; rfl
  | cons a rest ih =>
      intro h
      have ha : a = none := h a (List.mem_cons_self a rest)
      subst ha
      simpa [firstSome] using ih (fun q hq => h q (List.mem_cons_of_mem _ hq))

lemma firstSome_of_prior_none :
    ∀ (pre : List (Option Date)) (d : Date) (rest : List (Option Date)),
      (∀ q ∈ pre, q = none) → firstSome (pre ++ some d :: rest) = some d := by
  intro pre
  induction pre with
  | nil => intro d rest _; rfl
  | cons a p ih =>
      intro d rest h
      have ha : a = none := h a (List.mem_cons_self a p)
      subst ha
      simpa [firstSome] using ih d rest (fun q hq => h q (List.mem_cons_of_mem _ hq))

/-- C5: date parsing is deterministic by priority and totally falls
back — the first pattern in the fixed order that parses wins, exhausting
every pattern yields an empty date, and the ISO, unparseable and
ambiguous examples behave as stated (the ambiguous slash date resolves
as month/day/year because that pattern is earlier). -/
theorem date_parsing_priority :
    (∀ (s : String) (d : Date) (pre rest : List (Option Date)),
        patternResults s = pre ++ some d :: rest → (∀ q ∈ pre, q = none) →
        parseDate s = some d)
    ∧ (∀ s : String, (∀ q ∈ patternResults s, q = none) → parseDate s = none)
    ∧ parseDate "2024-05-01" = some ⟨2024, 5, 1⟩
    ∧ parseDate "not-a-date" = none
    ∧ parseDate "03/04/2024" = some ⟨2024, 3, 4⟩ := by
  refine ⟨?_, ?_, by decide, by decide, by decide⟩
  · intro s d pre rest hEq hPre
    unfold parseDate
    rw [hEq]
    exact firstSome_of_prior_none pre d rest hPre
  · intro s h
    unfold parseDate
    exact firstSome_all_none _ h

/-- Witness for C5: the ambiguous date resolves through the priority
rule with the concrete pattern results, and an unparseable string
exhausts every pattern. -/
theorem date_parsing_priority_witness :
    parseDate "03/04/2024" = some ⟨2024, 3, 4⟩
    ∧ parseDate "not-a-date" = none := by
  constructor
  · exact date_parsing_priority.1 "03/04/2024" ⟨2024, 3, 4⟩
      [none] [some ⟨2024, 4, 3⟩, none, none] (by decide) (by decide)
  · exact date_parsing_priority.2.1 "not-a-date" (by decide)

lemma skipEntry_false_iff (e : ArchiveEntry) :
    (!skipEntry e) = true ↔
      (hasSystemMarker e.path = false ∧ isDotFile e.path = false
        ∧ e.isDir = false) := by
  unfold skipEntry
  cases h1 : hasSystemMarker e.path <;> cases h2 : isDotFile e.path <;>
    cases h3 : e.isDir <;> simp

/-- C7: archive expansion filtering — an entry survives expansion
exactly when it has no system-folder marker segment, is not a dot-file
and is not a directory, and the macOS example archive expands to exactly
the one real image. -/
theorem archive_expansion_filtering :
    (∀ (l : List ArchiveEntry) (e : ArchiveEntry),
        e ∈ expandArchive l ↔
          (e ∈ l ∧ hasSystemMarker e.path = false ∧ isDotFile e.path = false
            ∧ e.isDir = false))
    ∧ expandArchive
        [⟨"__MACOSX/._x.png", false⟩, ⟨".DS_Store", false⟩, ⟨"invoice.png", false⟩]
        = [⟨"invoice.png", false⟩] := by
  constructor
  · intro l e
    rw [expandArchive, List.mem_filter, skipEntry_false_iff]
  · decide

/-- Witness for C7: the surviving entry of the macOS example is in the
expansion, via the filtering characterization at concrete input. -/
theorem archive_expansion_filtering_witness :
    (⟨"invoice.png", false⟩ : ArchiveEntry) ∈ expandArchive
      [⟨"__MACOSX/._x.png", false⟩, ⟨".DS_Store", false⟩, ⟨"invoice.png", false⟩] := by
  exact (archive_expansion_filtering.1 _ _).mpr (by decide)

lemma normalize_embed (c : CanonicalInvoice) :
    normalize (embedCanonical c) = c := by
  obtain ⟨n, v, dt, a, t, tot, p, sf⟩ := c
  cases n <;> cases dt <;> cases a <;> cases t <;> cases tot <;> cases p <;> rfl

/-- C6: Normalizer idempotence — presenting an already-canonical record
back to the Normalizer reproduces it exactly, so normalizing twice
equals normalizing once. -/
theorem normalizer_idempotent :
    (∀ c : CanonicalInvoice, normalize (embedCanonical c) = c)
    ∧ (∀ r : RawExtraction,
        normalize (embedCanonical (normalize r)) = normalize r) := by
  exact ⟨normalize_embed, fun r => normalize_embed (normalize r)⟩

lemma alookup_bump_self (l : List (String × Nat)) (k : String) :
    alookup (bump l k) k = some ((alookup l k).getD 0 + 1) := by
  induction l with
  | nil => simp [bump, alookup]
  | cons a rest ih =>
      obtain ⟨ak, an⟩ := a
      by_cases h : ak = k
      · subst h; simp [bump, alookup]
      · simp [bump, alookup, h, ih]

lemma alookup_bump_other (l : List (String × Nat)) (k k2 : String)
    (h : k2 ≠ k) : alookup (bump l k) k2 = alookup l k2 := by
  induction l with
  | nil => simp [bump, alookup, Ne.symm h]
  | cons a rest ih =>
      obtain ⟨ak, an⟩ := a
      by_cases hak : ak = k
      · subst hak; simp [bump, alookup, Ne.symm h]
      · simp [bump, alookup, hak, ih]

lemma alookup_none_iff (l : List (String × Nat)) (k : String) :
    alookup l k = none ↔ k ∉ l.map Prod.fst := by
  induction l with
  | nil => simp [alookup]
  | cons a rest ih =>
      obtain ⟨ak, an⟩ := a
      by_cases h : ak = k
      · subst h; simp [alookup]
      · simp [alookup, h, Ne.symm h, ih]

lemma bump_fst (l : List (String × Nat)) (k : String) :
    (bump l k).map Prod.fst
      = if alookup l k = none then l.map Prod.fst ++ [k]
        else l.map Prod.fst := by
  induction l with
  | nil => simp [bump, alookup]
  | cons a rest ih =>
      obtain ⟨ak, an⟩ := a
      by_cases h : ak = k
      · subst h; simp [bump, alookup]
      · by_cases h2 : alookup rest k = none
        · simp [bump, alookup, h, h2, ih]
        · simp [bump, alookup, h, h2, ih]

lemma nodup_fst_bump (l : List (String × Nat)) (k : String)
    (h : (l.map Prod.fst).Nodup) : ((bump l k).map Prod.fst).Nodup := by
  rw [bump_fst]
  split_ifs with hl
  · have hk : k ∉ l.map Prod.fst := (alookup_none_iff l k).mp hl
    simp [List.nodup_append, h, hk]
  · exact h

lemma nodup_fst_foldl_bump (ds : List String) :
    ∀ acc : List (String × Nat), (acc.map Prod.fst).Nodup →
      ((List.foldl bump acc ds).map Prod.fst).Nodup := by
  induction ds with
  | nil => intro acc h; simpa using h
  | cons d rest ih =>
      intro acc h
      rw [List.foldl_cons]
      exact ih _ (nodup_fst_bump acc d h)

lemma alookup_foldl_bump (ds : List String) :
    ∀ (acc : List (String × Nat)) (k : String),
      alookup (List.foldl bump acc ds) k
        = if alookup acc k = none ∧ ds.count k = 0 then none
          else some ((alookup acc k).getD 0 + ds.count k) := by
  induction ds with
  | nil =>
      intro acc k
      cases h : alookup acc k <;> simp [h]
  | cons d rest ih =>
      intro acc k
      rw [List.foldl_cons, ih]
      by_cases hdk : k = d
      · subst hdk
        rw [alookup_bump_self, List.count_cons_self]
        cases hacc : alookup acc k <;> simp <;> omega
      · rw [alookup_bump_other _ _ _ hdk, List.count_cons_of_ne hdk]

lemma mem_iff_alookup (l : List (String × Nat))
    (h : (l.map Prod.fst).Nodup) (k : String) (n : Nat) :
    (k, n) ∈ l ↔ alookup l k = some n := by
  induction l with
  | nil => simp [alookup]
  | cons a rest ih =>
      obtain ⟨ak, an⟩ := a
      have hrest : (rest.map Prod.fst).Nodup :=
        List.Nodup.of_cons (by simpa using h)
      by_cases hk : ak = k
      · subst hk
        have hnotin : ak ∉ rest.map Prod.fst :=
          (List.nodup_cons.mp (by simpa using h)).1
        constructor
        · intro hmem
          rcases List.mem_cons.mp hmem with heq | hmem2
          · have hn : n = an := congrArg Prod.snd heq
            subst hn
            simp [alookup]
          · exact absurd (by simpa using List.mem_map_of_mem Prod.fst hmem2) hnotin
        · intro halk
          have : an = n := by simpa [alookup] using halk
          subst this
          exact List.mem_cons_self _ _
      · have hne : ((k, n) : String × Nat) ≠ (ak, an) := by
          intro heq
          exact hk (congrArg Prod.fst heq).symm
        simp [alookup, hk, List.mem_cons, hne, ih hrest]

lemma count_filterMap_eq (f : Row → Option String) (l : List Row) (b : String) :
    (l.filterMap f).count b = l.countP (fun a => f a == some b) := by
  induction l with
  | nil => simp
  | cons a rest ih =>
      cases h : f a with
      | none => simp [List.filterMap_cons, h, List.countP_cons, ih]
      | some c =>
          by_cases hcb : c = b
          · subst hcb
            simp [List.filterMap_cons, h, List.countP_cons, ih, List.count_cons]
          · simp [List.filterMap_cons, h, List.countP_cons, ih,
              List.count_cons, hcb]

/-- C10: chart-data invariant — every chart entry's date comes from a
non-Failed row with that qualifying date and its count is the number of
such rows, the entry dates are pairwise distinct, the series is sorted
ascending by date, and at most ten entries are shown. -/
theorem chart_data_invariant (data : List Row) :
    (∀ p ∈ chartData data,
        (∃ r ∈ data, (r.status != "Failed") = true ∧ dateOf r = some p.1)
        ∧ p.2 = (data.filter (fun d => d.status != "Failed")).countP
            (fun r => dateOf r == some p.1))
    ∧ List.Sorted chartLe (chartData data)
    ∧ ((chartData data).map Prod.fst).Nodup
    ∧ (chartData data).length ≤ 10 := by
  unfold chartData lastN
  set ds := (data.filter (fun d => d.status != "Failed")).filterMap dateOf
    with hds
  set entries := buildCounts ds with hent
  set sorted := List.insertionSort chartLe entries with hsort
  have hnodupE : (entries.map Prod.fst).Nodup := by
    rw [hent]
    unfold buildCounts
    exact nodup_fst_foldl_bump ds [] (by simp)
  have hsorted : List.Sorted chartLe sorted := by
    rw [hsort]
    exact List.sorted_insertionSort chartLe entries
  have hperm : sorted.Perm entries := by
    rw [hsort]
    exact List.perm_insertionSort chartLe entries
  have hdrop : (sorted.drop (sorted.length - 10)).Sublist sorted :=
    List.drop_sublist _ _
  refine ⟨?_, ?_, ?_, ?_⟩
  · intro p hp
    obtain ⟨k, n⟩ := p
    have hpE : (k, n) ∈ entries := hperm.mem_iff.mp (List.mem_of_mem_drop hp)
    have halk : alookup entries k = some n :=
      (mem_iff_alookup entries hnodupE k n).mp hpE
    rw [hent] at halk
    unfold buildCounts at halk
    rw [alookup_foldl_bump ds [] k] at halk
    simp only [alookup, true_and] at halk
    by_cases hc : ds.count k = 0
    · rw [if_pos hc] at halk
      exact absurd halk (by simp)
    · rw [if_neg hc] at halk
      have hn : n = ds.count k := by
        simpa using halk.symm
      have hkds : k ∈ ds := List.count_pos_iff.mp (Nat.pos_of_ne_zero hc)
      rw [hds] at hkds
      obtain ⟨r, hrf, hrd⟩ := List.mem_filterMap.mp hkds
      obtain ⟨hrdata, hrstat⟩ := List.mem_filter.mp hrf
      refine ⟨⟨r, hrdata, hrstat, hrd⟩, ?_⟩
      rw [hn, hds]
      exact count_filterMap_eq dateOf _ k
  · exact List.Pairwise.sublist hdrop hsorted
  · exact List.Nodup.sublist (List.Sublist.map Prod.fst hdrop)
      ((hperm.map Prod.fst).nodup_iff.mpr hnodupE)
  · rw [List.length_drop]
    omega

/-- Witness for C10: the concrete three-row sample produces the single
entry with count two, obtained through the invariant with the
membership hypothesis discharged by evaluation. -/
theorem chart_data_invariant_witness :
    (chartData rowsSample).length ≤ 10
    ∧ (("2024-01-01", 2) : String × Nat).2
        = (rowsSample.filter (fun d => d.status != "Failed")).countP
            (fun r => dateOf r == some (("2024-01-01", 2) : String × Nat).1) := by
  refine ⟨(chart_data_invariant rowsSample).2.2.2, ?_⟩
  exact ((chart_data_invariant rowsSample).1 ("2024-01-01", 2) (by decide)).2

end InvoiceApp
